import Mathlib

/-!
Verification development for the resume-ai web application (`src/app.py`).

The application's handlers are shallowly embedded as Lean functions:

* Strings are `List Char`.  Python's `str.split()`, `str.isalpha()`,
  `str.lower()` and the substring test `in` are modelled character by
  character; the model restricts the character classes involved
  (whitespace, letters, case mapping) to their ASCII behaviour, which is
  what every input appearing in the specification exercises.
* Python floats are modelled as exact rationals (`ℚ`); `round(x, 2)` is
  modelled as rounding to the nearest multiple of 1/100 with ties going
  to an even hundredth, which is Python's round-half-to-even on the
  exact values arising here.
* A Python exception that escapes a handler (a division by zero, a
  missing file handed to `send_file`) is modelled as `none` /
  `Response.serverError`: the request fails instead of producing a value.
* The relational store is modelled as the list of persisted rows, and a
  browser session as the fields `app.py` stores in it.
-/

/-- ASCII whitespace as recognised by Python's `str.split()` (space, tab,
newline, carriage return, vertical tab, form feed). -/
def isPySpace (c : Char) : Bool :=
  c == ' ' || c == '\t' || c == '\n' || c == '\r' ||
    c == Char.ofNat 11 || c == Char.ofNat 12

/-- Worker for `splitWs`: accumulates the current word (reversed) and cuts
at whitespace, never emitting empty words. -/
def splitWsAux : List Char → List Char → List (List Char)
  | [], acc => if acc.isEmpty then [] else [acc.reverse]
  | c :: cs, acc =>
    if isPySpace c then
      if acc.isEmpty then splitWsAux cs [] else acc.reverse :: splitWsAux cs []
    else
      splitWsAux cs (c :: acc)

/-- Python's `str.split()` with no separator: split on runs of whitespace,
discarding empty tokens (`app.py` line 90). -/
def splitWs (l : List Char) : List (List Char) :=
  splitWsAux l []

/-- Python's `str.isalpha()` (ASCII fragment): nonempty and every character
a letter (`app.py` line 90). -/
def pyIsAlpha (w : List Char) : Bool :=
  !w.isEmpty && w.all (fun c => c.isAlpha)

/-- Python's `str.lower()` (ASCII fragment), applied characterwise. -/
def lowerL (l : List Char) : List Char :=
  l.map Char.toLower

/-- Test that the first list is an initial run of the second; the base of
the Python substring test. -/
def leadsWith : List Char → List Char → Bool
  | [], _ => true
  | _ :: _, [] => false
  | a :: as, b :: bs => a == b && leadsWith as bs

/-- Python's substring test `needle in hay`: `needle` occurs contiguously
somewhere in `hay` (`app.py` line 91 uses `kw in resume_text.lower()`). -/
def occursIn (needle : List Char) : List Char → Bool
  | [] => needle.isEmpty
  | c :: rest => leadsWith needle (c :: rest) || occursIn needle rest

/-- Round-half-to-even to an integer, Python's `round` on an exact value:
take the floor, then the fractional part decides, with a tie going to the
even neighbour. -/
def rhe (q : ℚ) : ℤ :=
  if q - ⌊q⌋ < 1/2 then ⌊q⌋
  else if (1:ℚ)/2 < q - ⌊q⌋ then ⌊q⌋ + 1
  else if ⌊q⌋ % 2 = 0 then ⌊q⌋ else ⌊q⌋ + 1

/-- Python's `round(q, 2)` on an exact value: round `q` to the nearest
hundredth, ties to even (`app.py` line 92). -/
def round2 (q : ℚ) : ℚ :=
  (rhe (q * 100) : ℚ) / 100

/-- Line 90 of `app.py`:
`job_keywords = [word.lower() for word in job_desc.split() if word.isalpha()]`.
Duplicates are kept: this is a list, not a set. -/
def jobKeywords (jobDesc : List Char) : List (List Char) :=
  ((splitWs jobDesc).filter pyIsAlpha).map lowerL

/-- Line 91 of `app.py`:
`score = sum(1 for kw in job_keywords if kw in resume_text.lower())`. -/
def matchCount (resumeText : List Char) (kws : List (List Char)) : Nat :=
  kws.countP (fun kw => occursIn kw (lowerL resumeText))

/-- Line 92 of `app.py`:
`match_percent = round((score / len(job_keywords)) * 100, 2)`.
When the keyword list is empty the Python expression raises
`ZeroDivisionError`; the model returns `none` for that failure. -/
def matchPercent (resumeText jobDesc : List Char) : Option ℚ :=
  let kws := jobKeywords jobDesc
  if kws.length = 0 then none
  else some (round2 ((matchCount resumeText kws : ℚ) / (kws.length : ℚ) * 100))

/-- Second scorer definition for the refinement claim, written from the
specification's words (§4.1): the keyword is tested for *case-insensitive
substring containment in the full resume text*, i.e. both sides are
lowercased before the containment test. -/
def specCaseInsensContains (resumeText kw : List Char) : Bool :=
  occursIn (lowerL kw) (lowerL resumeText)

/-- Second scorer definition for the refinement claim, written from the
specification's words (§4.1): tokenize the job description by whitespace,
keep only all-alphabetic tokens, lowercase them (duplicates counted); score
is (keywords found / total keywords) × 100 rounded to two decimal places,
undefined when there are no keywords. -/
def specMatchScore (resumeText jobDesc : List Char) : Option ℚ :=
  let kws := ((splitWs jobDesc).filter pyIsAlpha).map lowerL
  if kws.length = 0 then none
  else some (round2
    ((kws.countP (specCaseInsensContains resumeText) : ℚ) / (kws.length : ℚ) * 100))

/-- The job description of the specification's worked scenario (§8). -/
def exampleJobDesc : List Char :=
  "Looking for a Python Developer with SQL skills".toList

/-- The resume text of the specification's worked scenario (§8). -/
def exampleResume : List Char :=
  "Experienced Python developer with strong SQL and Java background".toList


/-- One element of the word-processor document built by `finalize`
(`app.py` lines 128-132): the heading added by `add_heading` or a body
paragraph added by `add_paragraph`. -/
inductive DocElem where
  | heading : List Char → Nat → DocElem
  | para : List Char → DocElem
deriving DecidableEq

/-- Python's `str.split("\n")`: cut at every newline, keeping empty pieces;
the empty string yields one empty piece. -/
def splitNl : List Char → List (List Char)
  | [] => [[]]
  | c :: cs =>
    if c = '\n' then [] :: splitNl cs
    else
      match splitNl cs with
      | [] => [[c]]
      | w :: ws => (c :: w) :: ws

/-- Rejoin line pieces with newlines; inverse of `splitNl`. -/
def joinNl : List (List Char) → List Char
  | [] => []
  | [w] => w
  | w :: ws => w ++ '\n' :: joinNl ws

/-- The Document Writer of `finalize` (`app.py` lines 128-132): a level-1
heading "Final Resume" followed by one paragraph per `split("\n")` piece of
the final text. -/
def buildDoc (finalText : List Char) : List DocElem :=
  DocElem.heading "Final Resume".toList 1 :: (splitNl finalText).map DocElem.para

/-- Modelled from the spec: re-extraction of the plain text of the Document
Writer's output is not part of the repository (`src/app.py` only writes
documents); following the spec's round-trip property (§8), it collects the
text of each body paragraph, the added "Final Resume" heading being the
document's title rather than a body line. -/
def extractParas : List DocElem → List (List Char)
  | [] => []
  | DocElem.heading _ _ :: rest => extractParas rest
  | DocElem.para t :: rest => t :: extractParas rest

/-- An `fpdf` font resource: `uni` is the `uni=True` flag of `add_font`
(`app.py` line 154), marking a Unicode-capable TrueType font. -/
structure PdfFont where
  uni : Bool
deriving DecidableEq

/-- The font registered by `download_pdf` (`app.py` line 154):
`pdf.add_font("DejaVu", "", "fonts/DejaVuSans.ttf", uni=True)`. -/
def dejaVuFont : PdfFont :=
  ⟨true⟩

/-- Whether a font can encode a character: a Unicode font encodes
everything, a legacy built-in font only latin-1. -/
def canEncode (f : PdfFont) (c : Char) : Bool :=
  f.uni || decide (c.toNat ≤ 255)

/-- The failure mode of the PDF writer: a character the selected font
cannot encode. -/
inductive PdfError where
  | encodingError : PdfError
deriving DecidableEq

/-- The PDF Writer of `download_pdf` (`app.py` lines 150-160): one
`multi_cell` per `split("\n")` piece of the text, failing only if some
character cannot be encoded by the font. -/
def renderPdf (f : PdfFont) (text : List Char) : Except PdfError (List (List Char)) :=
  if (splitNl text).all (fun l => l.all (canEncode f)) then Except.ok (splitNl text)
  else Except.error PdfError.encodingError

/-- A persisted `Resume` row (`app.py` lines 35-41): the
TransformationRecord of the specification. -/
structure ResumeRec where
  userId : Nat
  originalText : List Char
  transformedText : List Char
  score : ℚ
  timestamp : Nat
deriving DecidableEq

/-- The browser session as `app.py` uses it: the authenticated account id
(`session["user_id"]`) and the stashed final text (`session["final_text"]`),
each absent until set. -/
structure Sess where
  userId : Option Nat
  finalText : Option (List Char)
deriving DecidableEq

/-- The responses the modelled handlers produce. -/
inductive Response where
  | redirectLogin : Response
  | redirectDownloadOptions : Response
  | docxFile : List DocElem → Response
  | pdfFile : List (List Char) → Response
  | htmlPage : List ResumeRec → Response
  | serverError : Response
deriving DecidableEq

/-- The "newest first" order: the left record's timestamp is at least the right
one's (`order_by(Resume.timestamp.desc())`, `app.py` line 168). -/
def newestFirst (a b : ResumeRec) : Prop :=
  b.timestamp ≤ a.timestamp

instance : DecidableRel newestFirst :=
  fun a b => inferInstanceAs (Decidable (b.timestamp ≤ a.timestamp))

instance : IsTotal ResumeRec newestFirst :=
  ⟨fun a b => le_total b.timestamp a.timestamp⟩

instance : IsTrans ResumeRec newestFirst :=
  ⟨fun _ _ _ h1 h2 => le_trans h2 h1⟩

/-- The row persisted by a successful POST to `/index` (`app.py` lines
110-111): the extracted text, the remote service's transformed text, and
the match score; `none` when the scoring expression fails. -/
def indexPost (uid ts : Nat) (resumeText jobDesc transformedText : List Char) :
    Option ResumeRec :=
  (matchPercent resumeText jobDesc).map
    (fun s => ⟨uid, resumeText, transformedText, s, ts⟩)

/-- GET `/dashboard` (`app.py` lines 164-169): redirect to login without
touching the store when no account id is in the session; otherwise list
this account's rows, newest first. -/
def dashboard (sess : Sess) (records : List ResumeRec) : Response :=
  match sess.userId with
  | none => Response.redirectLogin
  | some uid =>
    Response.htmlPage
      (List.insertionSort newestFirst (records.filter (fun r => r.userId == uid)))

/-- POST `/finalize` (`app.py` lines 123-137): build and write the document
artifact, stash the final text in the session, redirect to the download
options page.  No session check occurs: the session is only written to. -/
def finalize (sess : Sess) (finalText : List Char) :
    Sess × List DocElem × Response :=
  (⟨sess.userId, some finalText⟩, buildDoc finalText, Response.redirectDownloadOptions)

/-- GET `/download/docx` (`app.py` lines 143-145): `send_file` on the fixed
artifact path.  The handler receives the request's session but never
consults it; a missing artifact makes `send_file` raise, which surfaces as
an unhandled server error. -/
def downloadDocx (_sess : Sess) (docxArtifact : Option (List DocElem)) : Response :=
  match docxArtifact with
  | some d => Response.docxFile d
  | none => Response.serverError

/-- GET `/download/pdf` (`app.py` lines 147-161): render the stashed final
text — defaulting to the empty string via `session.get("final_text", "")` —
with the Unicode font and serve the result.  No session check occurs. -/
def downloadPdf (sess : Sess) : Response :=
  match renderPdf dejaVuFont (sess.finalText.getD []) with
  | Except.ok cells => Response.pdfFile cells
  | Except.error _ => Response.serverError

-- Rounding lemmas.

theorem rhe_cases (q : ℚ) : rhe q = ⌊q⌋ ∨ rhe q = ⌊q⌋ + 1 := by
  unfold rhe
  split_ifs <;> simp

theorem floor_le_rhe (q : ℚ) : ⌊q⌋ ≤ rhe q := by
  rcases rhe_cases q with h | h <;> omega

theorem rhe_le_floor_add_one (q : ℚ) : rhe q ≤ ⌊q⌋ + 1 := by
  rcases rhe_cases q with h | h <;> omega

theorem rhe_mono {p q : ℚ} (h : p ≤ q) : rhe p ≤ rhe q := by
  rcases lt_or_eq_of_le (Int.floor_mono h) with hf | hf
  · calc rhe p ≤ ⌊p⌋ + 1 := rhe_le_floor_add_one p
      _ ≤ ⌊q⌋ := by omega
      _ ≤ rhe q := floor_le_rhe q
  · unfold rhe
    rw [← hf]
    split_ifs <;> first | omega | linarith

theorem rhe_intCast (n : ℤ) : rhe (n : ℚ) = n := by
  unfold rhe
  rw [Int.floor_intCast]
  norm_num

theorem round2_mono {p q : ℚ} (h : p ≤ q) : round2 p ≤ round2 q := by
  unfold round2
  have h1 : rhe (p * 100) ≤ rhe (q * 100) := rhe_mono (by linarith)
  have h2 : ((rhe (p * 100) : ℤ) : ℚ) ≤ ((rhe (q * 100) : ℤ) : ℚ) := by exact_mod_cast h1
  linarith

theorem round2_nonneg {q : ℚ} (h : 0 ≤ q) : 0 ≤ round2 q := by
  unfold round2
  have h1 : rhe 0 ≤ rhe (q * 100) := rhe_mono (by linarith)
  rw [show ((0:ℚ)) = ((0:ℤ) : ℚ) from by norm_num, rhe_intCast] at h1
  have h2 : (0:ℚ) ≤ ((rhe (q * 100) : ℤ) : ℚ) := by exact_mod_cast h1
  linarith

theorem round2_le_hundred {q : ℚ} (h : q ≤ 100) : round2 q ≤ 100 := by
  unfold round2
  have h1 : rhe (q * 100) ≤ rhe ((10000 : ℤ) : ℚ) := rhe_mono (by push_cast; linarith)
  rw [rhe_intCast] at h1
  have h2 : ((rhe (q * 100) : ℤ) : ℚ) ≤ 10000 := by exact_mod_cast h1
  linarith

-- Case mapping is idempotent, so the already-lowercased keywords of line 90
-- are invariant under the further lowering the specification's wording of
-- the containment test performs.

theorem char_ofNat_lower_toNat (m : ℕ) (h1 : 65 ≤ m) (h2 : m ≤ 90) :
    (Char.ofNat (m + 32)).toNat = m + 32 := by
  interval_cases m <;> decide

theorem toLower_toLower (c : Char) : c.toLower.toLower = c.toLower := by
  by_cases h : c.toNat ≥ 65 ∧ c.toNat ≤ 90
  · have h1 : c.toLower = Char.ofNat (c.toNat + 32) := by
      unfold Char.toLower
      rw [if_pos h]
    have h2 : (Char.ofNat (c.toNat + 32)).toNat = c.toNat + 32 :=
      char_ofNat_lower_toNat c.toNat h.1 h.2
    rw [h1]
    unfold Char.toLower
    rw [if_neg]
    rw [h2]
    omega
  · have h1 : c.toLower = c := by
      unfold Char.toLower
      rw [if_neg h]
    rw [h1, h1]

theorem lowerL_lowerL (w : List Char) : lowerL (lowerL w) = lowerL w := by
  unfold lowerL
  rw [List.map_map]
  exact List.map_congr_left (fun c _ => toLower_toLower c)

-- Unfolded forms of the two scorer definitions.

theorem matchPercent_def (r j : List Char) :
    matchPercent r j =
      if (jobKeywords j).length = 0 then none
      else some (round2
        ((matchCount r (jobKeywords j) : ℚ) / ((jobKeywords j).length : ℚ) * 100)) :=
  rfl

theorem specMatchScore_def (r j : List Char) :
    specMatchScore r j =
      if (jobKeywords j).length = 0 then none
      else some (round2
        (((jobKeywords j).countP (specCaseInsensContains r) : ℚ)
          / ((jobKeywords j).length : ℚ) * 100)) :=
  rfl

-- The scorer of lines 90-92 agrees with the specification's wording.

theorem matchPercent_eq_spec (r j : List Char) : matchPercent r j = specMatchScore r j := by
  rw [matchPercent_def, specMatchScore_def]
  have hcount :
      matchCount r (jobKeywords j) = (jobKeywords j).countP (specCaseInsensContains r) := by
    unfold matchCount jobKeywords
    apply List.countP_congr
    intro kw hkw
    rcases List.mem_map.mp hkw with ⟨w, _, hw⟩
    unfold specCaseInsensContains
    rw [← hw, lowerL_lowerL]
  rw [hcount]

-- Concrete evaluations on the specification's worked scenario.

theorem jobKeywords_example :
    jobKeywords exampleJobDesc =
      ["looking".toList, "for".toList, "a".toList, "python".toList,
       "developer".toList, "with".toList, "sql".toList, "skills".toList] := by
  decide

theorem matchCount_example :
    matchCount exampleResume (jobKeywords exampleJobDesc) = 5 := by
  decide

theorem jobKeywords_example_length :
    (jobKeywords exampleJobDesc).length = 8 := by
  decide

theorem matchPercent_example :
    matchPercent exampleResume exampleJobDesc = some (125/2) := by
  rw [matchPercent_def, matchCount_example, jobKeywords_example_length]
  norm_num [round2, rhe]

-- Bounds on every score the scorer produces.

theorem matchPercent_bounds {r j : List Char} {s : ℚ}
    (h : matchPercent r j = some s) : 0 ≤ s ∧ s ≤ 100 := by
  rw [matchPercent_def] at h
  by_cases hk : (jobKeywords j).length = 0
  · rw [if_pos hk] at h
    exact absurd h (by simp)
  · rw [if_neg hk] at h
    have hs : s = round2
        ((matchCount r (jobKeywords j) : ℚ) / ((jobKeywords j).length : ℚ) * 100) := by
      exact (Option.some.injEq _ _).mp h.symm
    have hm : matchCount r (jobKeywords j) ≤ (jobKeywords j).length :=
      List.countP_le_length _
    have hn : (0:ℚ) < ((jobKeywords j).length : ℚ) := by
      exact_mod_cast Nat.pos_of_ne_zero hk
    have hp0 : 0 ≤ (matchCount r (jobKeywords j) : ℚ) / ((jobKeywords j).length : ℚ) * 100 := by
      positivity
    have hp1 : (matchCount r (jobKeywords j) : ℚ) / ((jobKeywords j).length : ℚ) * 100 ≤ 100 := by
      have hd : (matchCount r (jobKeywords j) : ℚ) / ((jobKeywords j).length : ℚ) ≤ 1 :=
        (div_le_one hn).mpr (by exact_mod_cast hm)
      linarith
    exact hs ▸ ⟨round2_nonneg hp0, round2_le_hundred hp1⟩

-- Evaluations used by the witnesses.

theorem matchPercent_a_a : matchPercent "a".toList "a".toList = some 100 := by
  rw [matchPercent_def]
  rw [show jobKeywords "a".toList = ["a".toList] from by decide]
  rw [show matchCount "a".toList ["a".toList] = 1 from by decide]
  norm_num [round2, rhe]

theorem matchPercent_a_ab : matchPercent "a".toList "a b".toList = some 50 := by
  rw [matchPercent_def]
  rw [show jobKeywords "a b".toList = ["a".toList, "b".toList] from by decide]
  rw [show matchCount "a".toList ["a".toList, "b".toList] = 1 from by decide]
  norm_num [round2, rhe]

theorem matchPercent_ab_ab : matchPercent "a b".toList "a b".toList = some 100 := by
  rw [matchPercent_def]
  rw [show jobKeywords "a b".toList = ["a".toList, "b".toList] from by decide]
  rw [show matchCount "a b".toList ["a".toList, "b".toList] = 2 from by decide]
  norm_num [round2, rhe]

-- Line splitting and the document writer.

theorem splitNl_ne_nil (t : List Char) : splitNl t ≠ [] := by
  cases t with
  | nil => simp [splitNl]
  | cons c cs =>
    unfold splitNl
    by_cases hc : c = '\n'
    · rw [if_pos hc]
      simp
    · rw [if_neg hc]
      cases hsp : splitNl cs with
      | nil => simp
      | cons w ws => simp

theorem joinNl_cons_cons (w x : List Char) (ws : List (List Char)) :
    joinNl (w :: x :: ws) = w ++ '\n' :: joinNl (x :: ws) :=
  rfl

theorem joinNl_splitNl (t : List Char) : joinNl (splitNl t) = t := by
  induction t with
  | nil => rfl
  | cons c cs ih =>
    unfold splitNl
    by_cases hc : c = '\n'
    · rw [if_pos hc]
      cases hsp : splitNl cs with
      | nil => exact absurd hsp (splitNl_ne_nil cs)
      | cons w ws =>
        rw [joinNl_cons_cons, ← hsp, ih, hc]
        rfl
    · rw [if_neg hc]
      cases hsp : splitNl cs with
      | nil => exact absurd hsp (splitNl_ne_nil cs)
      | cons w ws =>
        cases ws with
        | nil =>
          show joinNl [c :: w] = c :: cs
          show c :: w = c :: cs
          rw [hsp] at ih
          show c :: joinNl [w] = c :: cs
          rw [ih]
        | cons x xs =>
          rw [joinNl_cons_cons]
          rw [hsp] at ih
          rw [joinNl_cons_cons] at ih
          show c :: (w ++ '\n' :: joinNl (x :: xs)) = c :: cs
          rw [ih]

theorem splitNl_no_newline (t : List Char) :
    ∀ l ∈ splitNl t, '\n' ∉ l := by
  induction t with
  | nil =>
    intro l hl
    simp [splitNl] at hl
    simp [hl]
  | cons c cs ih =>
    intro l hl
    unfold splitNl at hl
    by_cases hc : c = '\n'
    · rw [if_pos hc] at hl
      rcases List.mem_cons.mp hl with h | h
      · simp [h]
      · exact ih l h
    · rw [if_neg hc] at hl
      cases hsp : splitNl cs with
      | nil => exact absurd hsp (splitNl_ne_nil cs)
      | cons w ws =>
        rw [hsp] at hl
        rcases List.mem_cons.mp hl with h | h
        · subst h
          intro hmem
          rcases List.mem_cons.mp hmem with h | h
          · exact hc h.symm
          · exact ih w (by rw [hsp]; exact List.mem_cons_self w ws) h
        · exact ih l (by rw [hsp]; exact List.mem_cons_of_mem w h)

theorem extractParas_map_para (ls : List (List Char)) :
    extractParas (ls.map DocElem.para) = ls := by
  induction ls with
  | nil => rfl
  | cons w ws ih =>
    show w :: extractParas (ws.map DocElem.para) = w :: ws
    rw [ih]

-- The Unicode font renders every text.

theorem renderPdf_dejaVu (t : List Char) :
    renderPdf dejaVuFont t = Except.ok (splitNl t) := by
  unfold renderPdf
  rw [if_pos]
  simp [canEncode, dejaVuFont]

theorem downloadPdf_eq (sess : Sess) :
    downloadPdf sess = Response.pdfFile (splitNl (sess.finalText.getD [])) := by
  unfold downloadPdf
  rw [renderPdf_dejaVu]

/-- C1: The Match Scorer of `app.py` lines 90-92 computes its score exactly
as the specification states: it agrees pointwise with the scorer written
from the specification's words (whitespace tokens, all-alphabetic filter,
lowercasing, duplicates kept, case-insensitive substring containment in the
full resume text, found/total × 100 rounded to two decimal places); on the
worked scenario the job description yields exactly the eight listed
keywords, duplicates are counted rather than deduplicated, and for any
resume the score is (matches/8) × 100 rounded to two decimals — for the
scenario's resume, 5 of 8 keywords match and the score is 62.5. -/
theorem C1_match_scorer_as_specified :
    (∀ r j, matchPercent r j = specMatchScore r j)
    ∧ jobKeywords exampleJobDesc =
        ["looking".toList, "for".toList, "a".toList, "python".toList,
         "developer".toList, "with".toList, "sql".toList, "skills".toList]
    ∧ (jobKeywords exampleJobDesc).length = 8
    ∧ jobKeywords "Python python".toList = ["python".toList, "python".toList]
    ∧ (∀ r, matchPercent r exampleJobDesc =
        some (round2 ((matchCount r (jobKeywords exampleJobDesc) : ℚ) / 8 * 100)))
    ∧ matchCount exampleResume (jobKeywords exampleJobDesc) = 5
    ∧ matchPercent exampleResume exampleJobDesc = some (125 / 2) := by
  refine ⟨matchPercent_eq_spec, jobKeywords_example, jobKeywords_example_length,
    by decide, ?_, matchCount_example, matchPercent_example⟩
  intro r
  rw [matchPercent_def, jobKeywords_example_length]
  norm_num

/-- C2: The claim says a zero-keyword job description is guarded (an
InvalidInput failure or a defined score of 0).  The code has no guard: for
every job description with no all-alphabetic whitespace token — the empty
string, pure whitespace, tokens with digits or symbols — the scoring
expression of `app.py` line 92 divides by zero and the handler fails
(modelled as `none`); failure happens exactly when the keyword list is
empty. -/
theorem C2_zero_keywords_crash :
    (∀ r, matchPercent r [] = none)
    ∧ (∀ r, matchPercent r "   ".toList = none)
    ∧ (∀ r, matchPercent r "123 C4 2025".toList = none)
    ∧ (∀ r j, matchPercent r j = none ↔ (jobKeywords j).length = 0) := by
  have hch : ∀ r j, matchPercent r j = none ↔ (jobKeywords j).length = 0 := by
    intro r j
    rw [matchPercent_def]
    split_ifs with hk
    · simp [hk]
    · simp [hk]
  refine ⟨?_, ?_, ?_, hch⟩
  · intro r
    exact (hch r []).mpr (by decide)
  · intro r
    exact (hch r "   ".toList).mpr (by decide)
  · intro r
    exact (hch r "123 C4 2025".toList).mpr (by decide)

/-- C3: Whenever the scorer of `app.py` lines 90-92 produces a score, that
score lies in [0, 100]; consequently every Resume row the `/index` handler
persists stores a score in [0, 100]. -/
theorem C3_score_in_range :
    (∀ r j s, matchPercent r j = some s → 0 ≤ s ∧ s ≤ 100)
    ∧ (∀ uid ts r j tr rec, indexPost uid ts r j tr = some rec →
        0 ≤ rec.score ∧ rec.score ≤ 100) := by
  constructor
  · intro r j s h
    exact matchPercent_bounds h
  · intro uid ts r j tr rec h
    unfold indexPost at h
    cases hmp : matchPercent r j with
    | none =>
      rw [hmp] at h
      exact absurd h (by simp)
    | some s =>
      rw [hmp] at h
      simp only [Option.map_some', Option.some.injEq] at h
      have hb := matchPercent_bounds hmp
      rw [← h]
      exact hb

theorem C3_score_in_range_witness : 0 ≤ (100:ℚ) ∧ (100:ℚ) ≤ 100 :=
  C3_score_in_range.1 "a".toList "a".toList 100 matchPercent_a_a

/-- C4: For a fixed job description, if every keyword that substring-matches
(case-insensitively) in resume text A also matches in resume text B, then
the score of A is at most the score of B: the scorer of `app.py` lines
90-92 is monotone in the set of matched keywords. -/
theorem C4_score_monotone (j r1 r2 : List Char)
    (hsub : ∀ kw ∈ jobKeywords j,
      occursIn kw (lowerL r1) = true → occursIn kw (lowerL r2) = true)
    (s1 s2 : ℚ) (h1 : matchPercent r1 j = some s1) (h2 : matchPercent r2 j = some s2) :
    s1 ≤ s2 := by
  rw [matchPercent_def] at h1 h2
  by_cases hk : (jobKeywords j).length = 0
  · rw [if_pos hk] at h1
    exact absurd h1 (by simp)
  · rw [if_neg hk] at h1 h2
    have hs1 : s1 = round2
        ((matchCount r1 (jobKeywords j) : ℚ) / ((jobKeywords j).length : ℚ) * 100) :=
      (Option.some.injEq _ _).mp h1.symm
    have hs2 : s2 = round2
        ((matchCount r2 (jobKeywords j) : ℚ) / ((jobKeywords j).length : ℚ) * 100) :=
      (Option.some.injEq _ _).mp h2.symm
    have hc : matchCount r1 (jobKeywords j) ≤ matchCount r2 (jobKeywords j) :=
      List.countP_mono_left hsub
    have hn : (0:ℚ) < ((jobKeywords j).length : ℚ) := by
      exact_mod_cast Nat.pos_of_ne_zero hk
    have hp : (matchCount r1 (jobKeywords j) : ℚ) / ((jobKeywords j).length : ℚ) * 100
        ≤ (matchCount r2 (jobKeywords j) : ℚ) / ((jobKeywords j).length : ℚ) * 100 := by
      have hcq : (matchCount r1 (jobKeywords j) : ℚ) ≤ (matchCount r2 (jobKeywords j) : ℚ) := by
        exact_mod_cast hc
      have hd := (div_le_div_iff_of_pos_right hn).mpr hcq
      linarith
    exact hs1 ▸ hs2 ▸ round2_mono hp

theorem C4_score_monotone_witness : (50:ℚ) ≤ 100 :=
  C4_score_monotone "a b".toList "a".toList "a b".toList (by decide)
    50 100 matchPercent_a_ab matchPercent_ab_ab

/-- C5: The Document Writer of `finalize` (`app.py` lines 128-132) produces
a top-level heading "Final Resume" followed by exactly one paragraph per
newline-separated input line (`splitNl` genuinely is the line decomposition:
rejoining its pieces with newlines restores the input and no piece contains
a newline, an empty line giving an empty paragraph); in particular
"Line1\n\nLine3" yields exactly three paragraphs with the middle one
empty. -/
theorem C5_document_writer :
    (∀ t, buildDoc t =
      DocElem.heading "Final Resume".toList 1 :: (splitNl t).map DocElem.para)
    ∧ (∀ t, joinNl (splitNl t) = t)
    ∧ (∀ t l, l ∈ splitNl t → '\n' ∉ l)
    ∧ buildDoc "Line1\n\nLine3".toList =
        [DocElem.heading "Final Resume".toList 1,
         DocElem.para "Line1".toList, DocElem.para [], DocElem.para "Line3".toList] := by
  exact ⟨fun t => rfl, joinNl_splitNl, fun t => splitNl_no_newline t, by decide⟩

theorem C5_document_writer_witness : '\n' ∉ "Line1".toList :=
  C5_document_writer.2.2.1 "Line1\n\nLine3".toList "Line1".toList (by decide)

/-- C6 counterexample: with no finalize having run (no stashed final text,
no artifact), GET `/download/pdf` does not fail at all: it serves a PDF
rendered from the empty string (one empty cell), contradicting the claim
that it fails with a DownloadNotFound error rather than serving a
result. -/
theorem C6_counterexample :
    downloadPdf ⟨none, none⟩ = Response.pdfFile [[]]
    ∧ downloadPdf ⟨none, none⟩ ≠ Response.serverError
    ∧ downloadPdf ⟨none, none⟩ ≠ Response.redirectLogin := by
  refine ⟨by decide, by decide, by decide⟩

/-- C6 amended: before finalize has produced an artifact, GET
`/download/docx` fails — `send_file` on the missing fixed path raises,
surfacing as an unhandled server error rather than a handled
DownloadNotFound — and serves no result; GET `/download/pdf` does not fail:
it renders and serves a PDF of the session's stashed final text, which
defaults to the empty string. -/
theorem C6_amended_downloads :
    (∀ sess, downloadDocx sess none = Response.serverError)
    ∧ (∀ uid, downloadPdf ⟨uid, none⟩ = Response.pdfFile [[]])
    ∧ (∀ uid ft, downloadPdf ⟨uid, some ft⟩ = Response.pdfFile (splitNl ft)) := by
  refine ⟨fun sess => rfl, fun uid => ?_, fun uid ft => ?_⟩
  · rw [downloadPdf_eq]
    rfl
  · rw [downloadPdf_eq]
    rfl

/-- C7: Round-trip: for every input text, exporting it with the Document
Writer and re-extracting the plain text of the body paragraphs yields
exactly the input's sequence of newline-separated lines (even without
discarding trailing whitespace), and rejoining those lines restores the
input. -/
theorem C7_roundtrip (t : List Char) :
    extractParas (buildDoc t) = splitNl t ∧ joinNl (splitNl t) = t := by
  constructor
  · show extractParas ((splitNl t).map DocElem.para) = splitNl t
    exact extractParas_map_para (splitNl t)
  · exact joinNl_splitNl t

/-- C8: The PDF Writer with the Unicode DejaVu font (`uni=True`,
`app.py` line 154) never fails: on every input — in particular ASCII-only
text, text of only non-ASCII characters, and the empty string — it
produces its cells; and both writers accept the empty string, the PDF
Writer producing a single empty cell and the Document Writer a heading
plus one empty paragraph. -/
theorem C8_writers_never_fail :
    (∀ t, renderPdf dejaVuFont t = Except.ok (splitNl t))
    ∧ renderPdf dejaVuFont "hello world".toList = Except.ok ["hello world".toList]
    ∧ renderPdf dejaVuFont "日本語の履歴書".toList = Except.ok ["日本語の履歴書".toList]
    ∧ renderPdf dejaVuFont [] = Except.ok [[]]
    ∧ buildDoc [] = [DocElem.heading "Final Resume".toList 1, DocElem.para []] := by
  refine ⟨renderPdf_dejaVu, ?_, ?_, ?_, by decide⟩
  · rw [renderPdf_dejaVu, show splitNl "hello world".toList = ["hello world".toList] from by decide]
  · rw [renderPdf_dejaVu, show splitNl "日本語の履歴書".toList = ["日本語の履歴書".toList] from by decide]
  · rw [renderPdf_dejaVu]
    rfl

/-- C9: GET `/dashboard` with no authenticated session is answered with the
redirect to `/login`, whose value is independent of the stored records (no
record data is queried or leaked); with a session it serves exactly the
rows of that account — a permutation of the store filtered to the account
id — ordered newest first. -/
theorem C9_dashboard_access :
    (∀ ft recs, dashboard ⟨none, ft⟩ recs = Response.redirectLogin)
    ∧ (∀ ft recs1 recs2, dashboard ⟨none, ft⟩ recs1 = dashboard ⟨none, ft⟩ recs2)
    ∧ (∀ uid ft recs, ∃ l, dashboard ⟨some uid, ft⟩ recs = Response.htmlPage l
        ∧ (∀ rec ∈ l, rec.userId = uid)
        ∧ l.Perm (recs.filter (fun rec => rec.userId == uid))
        ∧ List.Sorted newestFirst l) := by
  refine ⟨fun ft recs => rfl, fun ft recs1 recs2 => rfl, fun uid ft recs => ?_⟩
  refine ⟨List.insertionSort newestFirst (recs.filter (fun rec => rec.userId == uid)),
    rfl, ?_, List.perm_insertionSort _ _, List.sorted_insertionSort _ _⟩
  intro rec hrec
  have hmem : rec ∈ recs.filter (fun rec => rec.userId == uid) :=
    (List.perm_insertionSort newestFirst _).mem_iff.mp hrec
  have hf := List.mem_filter.mp hmem
  simpa using hf.2

theorem C9_dashboard_access_witness :
    ∃ l, dashboard ⟨some 1, none⟩ [] = Response.htmlPage l
      ∧ (∀ rec ∈ l, rec.userId = 1)
      ∧ l.Perm (List.filter (fun rec => rec.userId == 1) [])
      ∧ List.Sorted newestFirst l :=
  C9_dashboard_access.2.2 1 none []

/-- C10 (implicit): POST `/finalize`, GET `/download/docx` and GET
`/download/pdf` perform no session check: each handler's behaviour is the
same for every session — in particular one with no authenticated user —
and is fully characterised positively: finalize writes the shared document
artifact, stashes the text, and redirects to the download options page;
the download handlers serve the current shared artifact or stashed text,
never redirecting to login. -/
theorem C10_no_session_check :
    (∀ ft txt, finalize ⟨none, ft⟩ txt
        = (⟨none, some txt⟩, buildDoc txt, Response.redirectDownloadOptions))
    ∧ (∀ sess txt, finalize sess txt
        = (⟨sess.userId, some txt⟩, buildDoc txt, Response.redirectDownloadOptions))
    ∧ (∀ sess1 sess2 art, downloadDocx sess1 art = downloadDocx sess2 art)
    ∧ (∀ sess d, downloadDocx sess (some d) = Response.docxFile d)
    ∧ (∀ uid1 uid2 ft, downloadPdf ⟨uid1, ft⟩ = downloadPdf ⟨uid2, ft⟩)
    ∧ (∀ sess, downloadPdf sess = Response.pdfFile (splitNl (sess.finalText.getD [])))
    ∧ (∀ uid ft, downloadPdf ⟨uid, some ft⟩ = Response.pdfFile (splitNl ft)) := by
  refine ⟨fun ft txt => rfl, fun sess txt => rfl, fun sess1 sess2 art => rfl,
    fun sess d => rfl, fun uid1 uid2 ft => rfl, downloadPdf_eq, fun uid ft => ?_⟩
  rw [downloadPdf_eq]
  rfl
